import Mathlib

/-!
# gpgenie — verification of the fingerprint-scoring engine and key pipeline

Shallow embedding of the gpgenie sources in Lean 4.

Scoring engine: the embedding follows `CalculateScores` from the
`domain` package (the optimized table-driven implementation: lookup table
`charToValueMap`, precomputed `repeatScoreMap`/`sequenceScoreMap`, a single
left-to-right scan holding run trackers in local variables, and a
`strings.Contains(line, "49")` magic check).  Go strings are byte sequences,
embedded as `List Nat` of byte values.  Go's `int(math.Pow(float64 x, 1.5))`
for `x ≤ 16` equals the exact integer floor of `x^1.5`, which is
`Nat.sqrt (x ^ 3)`; the embedding uses that exact form.  The Go `uint16`
uniqueness bitmask is embedded as a `Finset Nat` of the hex values whose bit
is set (bit membership = set membership, bit-or of a fresh bit = insert).

Modelling caveat (documented, and respected by every theorem below): the Go
score arrays have 32 entries and the run-length counters are `uint8`, so an
input containing a run of 32 or more characters makes the Go code index the
array out of range at the moment the run is scored.  The embedding is exact
for inputs shorter than 32 bytes; universal theorems therefore carry a
`length ≤ 31` (or `length = 16`) bound where they quantify over inputs.

Pipeline: the scorer acceptance filter and the saver batching loop of
`keyService.GenerateKeys` are embedded with the repository transaction
abstracted as a pair of oracles (`insertOk` deciding whether a
`tx.BatchCreate` call fails, `commitOk` whether the final `tx.Commit`
fails).  `SerializeKeys` is embedded with the armor primitives abstracted as
`Except` outcomes, since the spec treats them as opaque collaborators.
-/

namespace GPGenie

/-- The `Scores` record of the scoring engine.  The four pattern scores are
nonnegative maxima of table values, embedded as `Nat`; the magic score is
`0` or `-100`, embedded as `Int`. -/
structure Scores where
  RepeatLetterScore : Nat
  IncreasingLetterScore : Nat
  DecreasingLetterScore : Nat
  MagicLetterScore : Int
  UniqueLettersCount : Nat
deriving DecidableEq, Repr

/-- `charToValueMap` lookup: maps byte values of `0`-`9`, `A`-`F`, `a`-`f`
to hex digit values 0-15; every other byte maps to `-1` in Go, embedded as
`none`. -/
def charToValue (c : Nat) : Option Nat :=
  if 48 ≤ c ∧ c ≤ 57 then some (c - 48)
  else if 65 ≤ c ∧ c ≤ 70 then some (c - 65 + 10)
  else if 97 ≤ c ∧ c ≤ 102 then some (c - 97 + 10)
  else none

/-- Floor integer square root by bounded upward search: the largest `k` with
`k * k ≤ n` (structural recursion on the fuel, so it reduces in the
kernel). -/
def isqrtAux (n : Nat) : Nat → Nat → Nat
  | 0, k => k
  | fuel + 1, k => if (k + 1) * (k + 1) ≤ n then isqrtAux n fuel (k + 1) else k

/-- Floor of the real square root of `n`. -/
def isqrt (n : Nat) : Nat := isqrtAux n n 0

/-- `int(math.Pow(float64 x, 1.5))`: the integer floor of `x^1.5`, which is
exactly `⌊√(x ^ 3)⌋`.  For the run lengths 0-16 that the scoring code feeds
to `math.Pow`, the float64 computation is exact enough that truncation
agrees with the real floor. -/
def powCost (x : Nat) : Nat := isqrt (x ^ 3)

/-- Contents of the Go array `repeatScoreMap` after `init`: entries 3..16
are `int(math.Pow(float64 i, 1.5)) * 16`, all other in-range entries are 0.
(Indices 32 and above do not exist: Go would panic; see the caveat above.) -/
def repeatScoreMap (i : Nat) : Nat :=
  if 3 ≤ i ∧ i ≤ 16 then powCost i * 16 else 0

/-- Contents of the Go array `sequenceScoreMap` after `init`: entries 3..16
are `int(math.Pow(float64 (i-1), 1.5)) * 16`, all other in-range entries
are 0. -/
def sequenceScoreMap (i : Nat) : Nat :=
  if 3 ≤ i ∧ i ≤ 16 then powCost (i - 1) * 16 else 0

/-- The local state of the `CalculateScores` scan loop: uniqueness bitmask
and count, the three run-length counters, the three running maxima, and the
previous value/character (`prevVal` is the Go `int8`, initially `-1`). -/
structure ScanState where
  uniqueSet : Finset Nat
  uniqueCount : Nat
  repeatLen : Nat
  increasingLen : Nat
  decreasingLen : Nat
  maxRepeatScore : Nat
  maxIncreasingScore : Nat
  maxDecreasingScore : Nat
  prevVal : Int
  prevChar : Nat
deriving DecidableEq

/-- One iteration of the `CalculateScores` main loop (index `i ≥ 1`).  A
byte outside the hex alphabet takes the `charToValueMap[current] < 0` path:
nothing at all happens, the state is returned unchanged.  A hex byte updates
the uniqueness mask, the repeat tracker (on raw byte equality with
`prevChar`), and then the increasing/decreasing trackers through the
three-way `switch` on `diff = currentVal - prevVal`: an increasing step
extends the increasing run and silently resets the decreasing one, a
decreasing step symmetrically, and any other step scores whichever runs
exceeded the threshold and resets both. -/
def scanStep (st : ScanState) (c : Nat) : ScanState :=
  match charToValue c with
  | none => st
  | some v =>
    let uSet := if v ∈ st.uniqueSet then st.uniqueSet else insert v st.uniqueSet
    let uCnt := if v ∈ st.uniqueSet then st.uniqueCount else st.uniqueCount + 1
    let rLen := if c = st.prevChar then st.repeatLen + 1 else 1
    let rMax :=
      if c = st.prevChar then st.maxRepeatScore
      else if 3 ≤ st.repeatLen then max st.maxRepeatScore (repeatScoreMap st.repeatLen)
      else st.maxRepeatScore
    let diff : Int := (v : Int) - st.prevVal
    if diff = 1 ∨ (st.prevVal = 15 ∧ v = 0) then
      { uniqueSet := uSet, uniqueCount := uCnt, repeatLen := rLen,
        increasingLen := st.increasingLen + 1, decreasingLen := 1,
        maxRepeatScore := rMax,
        maxIncreasingScore := st.maxIncreasingScore,
        maxDecreasingScore := st.maxDecreasingScore,
        prevVal := (v : Int), prevChar := c }
    else if diff = -1 ∨ (st.prevVal = 0 ∧ v = 15) then
      { uniqueSet := uSet, uniqueCount := uCnt, repeatLen := rLen,
        increasingLen := 1, decreasingLen := st.decreasingLen + 1,
        maxRepeatScore := rMax,
        maxIncreasingScore := st.maxIncreasingScore,
        maxDecreasingScore := st.maxDecreasingScore,
        prevVal := (v : Int), prevChar := c }
    else
      { uniqueSet := uSet, uniqueCount := uCnt, repeatLen := rLen,
        increasingLen := 1, decreasingLen := 1,
        maxRepeatScore := rMax,
        maxIncreasingScore :=
          if 3 < st.increasingLen
          then max st.maxIncreasingScore (sequenceScoreMap st.increasingLen)
          else st.maxIncreasingScore,
        maxDecreasingScore :=
          if 3 < st.decreasingLen
          then max st.maxDecreasingScore (sequenceScoreMap st.decreasingLen)
          else st.maxDecreasingScore,
        prevVal := (v : Int), prevChar := c }

/-- `strings.Contains(line, "49")` on the raw byte sequence
(`'4'` = 52, `'9'` = 57). -/
def contains49 : List Nat → Bool
  | c1 :: c2 :: rest => (c1 == 52 && c2 == 57) || contains49 (c2 :: rest)
  | _ => false

/-- State after the first-character block of `CalculateScores`: a hex first
byte seeds the uniqueness mask and `prevVal`/`prevChar`; otherwise the
declared zero values remain (`prevVal = -1`, `prevChar = 0`). -/
def initState (c : Nat) : ScanState :=
  match charToValue c with
  | some v =>
    { uniqueSet := {v}, uniqueCount := 1,
      repeatLen := 1, increasingLen := 1, decreasingLen := 1,
      maxRepeatScore := 0, maxIncreasingScore := 0, maxDecreasingScore := 0,
      prevVal := (v : Int), prevChar := c }
  | none =>
    { uniqueSet := ∅, uniqueCount := 0,
      repeatLen := 1, increasingLen := 1, decreasingLen := 1,
      maxRepeatScore := 0, maxIncreasingScore := 0, maxDecreasingScore := 0,
      prevVal := -1, prevChar := 0 }

/-- The trailing block of `CalculateScores`: score the still-open runs with
the same thresholds, then assemble the record (magic score −100 exactly when
the raw input contains the byte pair `"49"`). -/
def finalScores (magic : Bool) (st : ScanState) : Scores :=
  { RepeatLetterScore :=
      if 3 ≤ st.repeatLen
      then max st.maxRepeatScore (repeatScoreMap st.repeatLen)
      else st.maxRepeatScore
    IncreasingLetterScore :=
      if 3 < st.increasingLen
      then max st.maxIncreasingScore (sequenceScoreMap st.increasingLen)
      else st.maxIncreasingScore
    DecreasingLetterScore :=
      if 3 < st.decreasingLen
      then max st.maxDecreasingScore (sequenceScoreMap st.decreasingLen)
      else st.maxDecreasingScore
    MagicLetterScore := if magic then -100 else 0
    UniqueLettersCount := st.uniqueCount }

/-- `CalculateScores` (the table-driven implementation): empty input yields
the zero record; otherwise process the first byte, fold the loop body over
the rest, and close out the open runs. -/
def CalculateScores (line : List Nat) : Scores :=
  match line with
  | [] =>
    { RepeatLetterScore := 0, IncreasingLetterScore := 0,
      DecreasingLetterScore := 0, MagicLetterScore := 0,
      UniqueLettersCount := 0 }
  | c :: rest => finalScores (contains49 (c :: rest)) (rest.foldl scanStep (initState c))

/-- Byte values of an ASCII string literal, for concrete test vectors. -/
def bytes (s : String) : List Nat := s.data.map Char.toNat

/-- `isIncreasing`: b is the cyclic successor of a (`F` wraps to `0`);
false when either byte is not hex. -/
def isIncreasing (a b : Nat) : Bool :=
  match charToValue a, charToValue b with
  | some va, some vb => vb == (va + 1) % 16
  | _, _ => false

/-- `isDecreasing`: b is the cyclic predecessor of a (`0` wraps to `F`);
false when either byte is not hex.  Go computes `(valA - 1 + 16) % 16`,
which equals `(valA + 15) % 16`. -/
def isDecreasing (a b : Nat) : Bool :=
  match charToValue a, charToValue b with
  | some va, some vb => vb == (va + 15) % 16
  | _, _ => false

/-- ASCII upper-casing of one byte (`strings.ToUpper` restricted to the
ASCII inputs the theorems below use). -/
def toUpperByte (c : Nat) : Nat := if 97 ≤ c ∧ c ≤ 122 then c - 32 else c

/-- Scan state of the pow-recomputing `CalculateScores` variant (the one
with no lookup tables): distinct runes seen, the three run counters, the
three running maxima. -/
structure PowState where
  uniqueRunes : Finset Nat
  repeatLen : Nat
  incLen : Nat
  decLen : Nat
  repeatScore : Nat
  incScore : Nat
  decScore : Nat
deriving DecidableEq

/-- Loop body (index `i ≥ 1`) of the pow-recomputing variant: every rune
(hex or not) joins the uniqueness map; the repeat tracker works on raw rune
equality; the increasing and decreasing trackers are updated by two
independent if/else blocks, each recomputing its cost with `math.Pow` at
the break point and multiplying by the input length. -/
def powStep (len : Nat) (st : PowState) (p c : Nat) : PowState :=
  let u := insert c st.uniqueRunes
  let rLen := if c = p then st.repeatLen + 1 else 1
  let rScore :=
    if c = p then st.repeatScore
    else if 3 ≤ st.repeatLen then max st.repeatScore (powCost st.repeatLen * len)
    else st.repeatScore
  let iLen := if isIncreasing p c then st.incLen + 1 else 1
  let iScore :=
    if isIncreasing p c then st.incScore
    else if 3 < st.incLen then max st.incScore (powCost (st.incLen - 1) * len)
    else st.incScore
  let dLen := if isDecreasing p c then st.decLen + 1 else 1
  let dScore :=
    if isDecreasing p c then st.decScore
    else if 3 < st.decLen then max st.decScore (powCost (st.decLen - 1) * len)
    else st.decScore
  { uniqueRunes := u, repeatLen := rLen, incLen := iLen, decLen := dLen,
    repeatScore := rScore, incScore := iScore, decScore := dScore }

/-- The main loop of the pow-recomputing variant, carrying the previous
rune explicitly. -/
def powLoop (len : Nat) : PowState → Nat → List Nat → PowState
  | st, _, [] => st
  | st, p, c :: rest => powLoop len (powStep len st p c) c rest

/-- The pow-recomputing `CalculateScores` variant: upper-case the input,
scan it once, score the still-open runs at the end, count the distinct
runes, and apply the magic check. -/
def CalculateScoresPow (line : List Nat) : Scores :=
  match line.map toUpperByte with
  | [] =>
    { RepeatLetterScore := 0, IncreasingLetterScore := 0,
      DecreasingLetterScore := 0, MagicLetterScore := 0,
      UniqueLettersCount := 0 }
  | c0 :: rest =>
    let len := (c0 :: rest).length
    let stF := powLoop len
      { uniqueRunes := {c0}, repeatLen := 1, incLen := 1, decLen := 1,
        repeatScore := 0, incScore := 0, decScore := 0 } c0 rest
    { RepeatLetterScore :=
        if 3 ≤ stF.repeatLen
        then max stF.repeatScore (powCost stF.repeatLen * len)
        else stF.repeatScore
      IncreasingLetterScore :=
        if 3 < stF.incLen
        then max stF.incScore (powCost (stF.incLen - 1) * len)
        else stF.incScore
      DecreasingLetterScore :=
        if 3 < stF.decLen
        then max stF.decScore (powCost (stF.decLen - 1) * len)
        else stF.decScore
      MagicLetterScore := if contains49 (c0 :: rest) then -100 else 0
      UniqueLettersCount := stF.uniqueRunes.card }

/-- Lengths of the maximal `step`-runs of the input, left to right. -/
def runLengthsAux (step : Nat → Nat → Bool) : Nat → Nat → List Nat → List Nat
  | _, n, [] => [n]
  | p, n, c :: rest =>
    if step p c then runLengthsAux step c (n + 1) rest
    else n :: runLengthsAux step c 1 rest

/-- Lengths of the maximal `step`-runs of the input (empty input has no
runs). -/
def runLengths (step : Nat → Nat → Bool) : List Nat → List Nat
  | [] => []
  | c :: rest => runLengthsAux step c 1 rest

/-- The sequence-score formula exactly as the C2 claim states it: the
maximum of `floor((len-1)^1.5) * 16` over all maximal `step`-runs with
length at least 4 (a run still open at end of input included), 0 when no
such run exists. -/
def specSeqScore (step : Nat → Nat → Bool) (line : List Nat) : Nat :=
  (runLengths step line).foldl
    (fun m n => if 4 ≤ n then max m (powCost (n - 1) * 16) else m) 0

/-- The repeat-score semantics the C3 claim asserts (invalid characters
break runs and are never part of one): maximal runs of equal hex bytes,
scored with the repeat table when length ≥ 3. -/
def specRepeatScoreBreaking (line : List Nat) : Nat :=
  (runLengths (fun p c => p == c && (charToValue c).isSome) line).foldl
    (fun m n => if 3 ≤ n then max m (repeatScoreMap n) else m) 0

/-- Lengths of the `step`-runs the table-driven scan loop actually scores:
a run is emitted when it is broken by a byte that is neither a
`step`-continuation nor an `opp`-step, or by end of input; a run broken by
an `opp`-step is discarded without being emitted. -/
def scoredRunsAux (step opp : Nat → Nat → Bool) : Nat → Nat → List Nat → List Nat
  | _, n, [] => [n]
  | p, n, c :: rest =>
    if step p c then scoredRunsAux step opp c (n + 1) rest
    else if opp p c then scoredRunsAux step opp c 1 rest
    else n :: scoredRunsAux step opp c 1 rest

/-- Lengths of the `step`-runs the scan loop scores (empty input: none). -/
def scoredRuns (step opp : Nat → Nat → Bool) : List Nat → List Nat
  | [] => []
  | c :: rest => scoredRunsAux step opp c 1 rest

/-- Maximum `sequenceScoreMap` value over the run lengths `> 3` in `l`. -/
def seqRunMax (l : List Nat) : Nat :=
  l.foldl (fun m n => if 3 < n then max m (sequenceScoreMap n) else m) 0

/-! ## Pipeline model -/

/-- The fields of `config.KeyGenerationConfig` the scorer and saver read. -/
structure KeyGenerationConfig where
  MinScore : Int
  MaxLettersCount : Int
  BatchSize : Nat

/-- `models.KeyInfo`, the persisted record. -/
structure KeyInfo where
  Fingerprint : List Nat
  PublicKey : String
  PrivateKey : String
  RepeatLetterScore : Nat
  IncreasingLetterScore : Nat
  DecreasingLetterScore : Nat
  MagicLetterScore : Int
  Score : Int
  UniqueLettersCount : Nat
deriving DecidableEq

/-- `totalScore` as computed by `scorerWorker`: sum of the four pattern
scores. -/
def totalScore (sc : Scores) : Int :=
  (sc.RepeatLetterScore : Int) + (sc.IncreasingLetterScore : Int) +
    (sc.DecreasingLetterScore : Int) + sc.MagicLetterScore

/-- `fingerprint[len(fingerprint)-16:]`. -/
def lastSixteen (fp : List Nat) : List Nat := fp.drop (fp.length - 16)

/-- One candidate entity, represented by the bytes of its hex fingerprint
string (`fmt.Sprintf %x`). -/
structure Candidate where
  fingerprint : List Nat
deriving DecidableEq

/-- The per-entity body of `scorerWorker`: score the last sixteen
fingerprint bytes; when `totalScore <= MinScore || UniqueLettersCount <
MaxLettersCount` the candidate is dropped with no further work; otherwise
it is serialized (`serialize` abstracts `domain.SerializeKeys`; a failing
serialization also drops the candidate) and the assembled `KeyInfo` is
sent on. -/
def scorerStep (cfg : KeyGenerationConfig)
    (serialize : Candidate → Option (String × String)) (cand : Candidate) :
    Option KeyInfo :=
  let scores := CalculateScores (lastSixteen cand.fingerprint)
  let total := totalScore scores
  if total ≤ cfg.MinScore ∨ (scores.UniqueLettersCount : Int) < cfg.MaxLettersCount then
    none
  else
    match serialize cand with
    | none => none
    | some (pub, priv) =>
      some { Fingerprint := cand.fingerprint, PublicKey := pub, PrivateKey := priv,
             RepeatLetterScore := scores.RepeatLetterScore,
             IncreasingLetterScore := scores.IncreasingLetterScore,
             DecreasingLetterScore := scores.DecreasingLetterScore,
             MagicLetterScore := scores.MagicLetterScore,
             Score := total,
             UniqueLettersCount := scores.UniqueLettersCount }

/-- The saver loop of `GenerateKeys`: records accumulate in `localBatch`;
when it reaches `BatchSize` it is passed to `tx.BatchCreate` inside the one
open transaction (`insertOk` decides whether that call fails; on failure
the saver rolls the transaction back and stops: result `none`); at channel
close the remaining partial batch is flushed the same way.  `some l`
returns the records sitting in the still-open transaction. -/
def saverLoop (bs : Nat) (insertOk : List KeyInfo → Bool) :
    List KeyInfo → List KeyInfo → List KeyInfo → Option (List KeyInfo)
  | inserted, batch, [] =>
    if batch.isEmpty then some inserted
    else if insertOk batch then some (inserted ++ batch) else none
  | inserted, batch, k :: rest =>
    let b := batch ++ [k]
    if bs ≤ b.length then
      if insertOk b then saverLoop bs insertOk (inserted ++ b) [] rest
      else none
    else saverLoop bs insertOk inserted b rest

/-- Outcome of one `GenerateKeys` run: what was durably persisted, and the
error value `GenerateKeys` returned to its caller. -/
structure RunOutcome where
  persisted : List KeyInfo
  returnedError : Option String
deriving DecidableEq

/-- `keyService.GenerateKeys`, sequentialized: the scorer stage filters and
serializes the candidates (order preserved), the saver batches the
survivors inside the single per-run transaction, and `tx.Commit` runs once
at the end (`commitOk` decides whether it fails).  A failed `BatchCreate`
rolls the transaction back — nothing from the run is persisted; a failed
`Commit` likewise leaves nothing durable.  In every case the Go function
returns `nil`: the saver goroutine only logs its errors, so
`returnedError` is always `none`. -/
def GenerateKeys (cfg : KeyGenerationConfig)
    (serialize : Candidate → Option (String × String))
    (insertOk : List KeyInfo → Bool) (commitOk : Bool)
    (candidates : List Candidate) : RunOutcome :=
  let survivors := candidates.filterMap (scorerStep cfg serialize)
  match saverLoop cfg.BatchSize insertOk [] [] survivors with
  | none => { persisted := [], returnedError := none }
  | some ins =>
    if commitOk then { persisted := ins, returnedError := none }
    else { persisted := [], returnedError := none }

/-- `domain.SerializeKeys` with the armor primitives abstracted as opaque
outcomes: `pubArmor` is the combined result of armor-encoding, serializing
and closing the public key (its three Go failure paths each return
`("", "", err)` and are collapsed into one `Except`), `privArmor` the same
for the private key, `encryptor` the injected capability (`none` models the
nil interface).  The overall result is `none` when the Go code crashes —
`encryptor.Encrypt` is invoked unconditionally, so a nil interface faults —
and otherwise `some` of the returned `(publicKey, privateKey, error)`
triple. -/
def SerializeKeys (pubArmor privArmor : Except String String)
    (encryptor : Option (String → Except String String)) :
    Option (String × String × Option String) :=
  match pubArmor with
  | .error e => some ("", "", some e)
  | .ok pub =>
    match privArmor with
    | .error e => some ("", "", some e)
    | .ok priv =>
      match encryptor with
      | none => none
      | some enc =>
        match enc priv with
        | .error e => some ("", "", some e)
        | .ok encPriv => some (pub, encPriv, none)

/-! ## Helper lemmas -/

/-- Hex values produced by `charToValue` are below 16. -/
theorem charToValue_lt {c v : Nat} (h : charToValue c = some v) : v < 16 := by
  unfold charToValue at h
  split_ifs at h <;> simp_all <;> omega

/-- A byte outside the hex alphabet leaves the scan state untouched: it
neither joins the uniqueness mask nor starts, extends, breaks or scores any
run. -/
theorem scanStep_invalid {c : Nat} (st : ScanState) (h : charToValue c = none) :
    scanStep st c = st := by
  simp [scanStep, h]

/-- A hex byte updates the uniqueness mask by inserting its value, and the
count accordingly. -/
theorem scanStep_unique {c v : Nat} (st : ScanState) (hv : charToValue c = some v) :
    (scanStep st c).uniqueSet = insert v st.uniqueSet ∧
    (scanStep st c).uniqueCount =
      (if v ∈ st.uniqueSet then st.uniqueCount else st.uniqueCount + 1) := by
  simp only [scanStep, hv]
  split_ifs <;> simp_all [Finset.insert_eq_self]

/-- A hex byte becomes the previous value/character for the next
iteration. -/
theorem scanStep_prev {c v : Nat} (st : ScanState) (hv : charToValue c = some v) :
    (scanStep st c).prevVal = (v : Int) ∧ (scanStep st c).prevChar = c := by
  simp only [scanStep, hv]
  split_ifs <;> exact ⟨rfl, rfl⟩

/-- Increasing-step branch of the scan loop: the increasing run grows, the
decreasing run is reset to 1 with no scoring, both maxima are untouched. -/
theorem scanStep_incBranch {c v : Nat} (st : ScanState)
    (hv : charToValue c = some v)
    (hcond : (v : Int) - st.prevVal = 1 ∨ (st.prevVal = 15 ∧ v = 0)) :
    (scanStep st c).increasingLen = st.increasingLen + 1 ∧
    (scanStep st c).decreasingLen = 1 ∧
    (scanStep st c).maxIncreasingScore = st.maxIncreasingScore ∧
    (scanStep st c).maxDecreasingScore = st.maxDecreasingScore := by
  simp only [scanStep, hv]
  rw [if_pos hcond]
  exact ⟨rfl, rfl, rfl, rfl⟩

/-- Decreasing-step branch of the scan loop: the decreasing run grows, the
increasing run is reset to 1 with no scoring, both maxima are untouched. -/
theorem scanStep_decBranch {c v : Nat} (st : ScanState)
    (hv : charToValue c = some v)
    (hcond1 : ¬ ((v : Int) - st.prevVal = 1 ∨ (st.prevVal = 15 ∧ v = 0)))
    (hcond2 : (v : Int) - st.prevVal = -1 ∨ (st.prevVal = 0 ∧ v = 15)) :
    (scanStep st c).increasingLen = 1 ∧
    (scanStep st c).decreasingLen = st.decreasingLen + 1 ∧
    (scanStep st c).maxIncreasingScore = st.maxIncreasingScore ∧
    (scanStep st c).maxDecreasingScore = st.maxDecreasingScore := by
  simp only [scanStep, hv]
  rw [if_neg hcond1, if_pos hcond2]
  exact ⟨rfl, rfl, rfl, rfl⟩

/-- Neutral branch of the scan loop: both runs are scored when above the
threshold and reset to 1. -/
theorem scanStep_neutralBranch {c v : Nat} (st : ScanState)
    (hv : charToValue c = some v)
    (hcond1 : ¬ ((v : Int) - st.prevVal = 1 ∨ (st.prevVal = 15 ∧ v = 0)))
    (hcond2 : ¬ ((v : Int) - st.prevVal = -1 ∨ (st.prevVal = 0 ∧ v = 15))) :
    (scanStep st c).increasingLen = 1 ∧
    (scanStep st c).decreasingLen = 1 ∧
    (scanStep st c).maxIncreasingScore =
      (if 3 < st.increasingLen
       then max st.maxIncreasingScore (sequenceScoreMap st.increasingLen)
       else st.maxIncreasingScore) ∧
    (scanStep st c).maxDecreasingScore =
      (if 3 < st.decreasingLen
       then max st.maxDecreasingScore (sequenceScoreMap st.decreasingLen)
       else st.maxDecreasingScore) := by
  simp only [scanStep, hv]
  rw [if_neg hcond1, if_neg hcond2]
  exact ⟨rfl, rfl, rfl, rfl⟩

/-- The uniqueness mask and count track exactly the set of hex values seen
so far: folding the scan over any suffix unions in the values of its hex
bytes, and the count stays equal to the mask's cardinality. -/
theorem scan_unique_invariant (rest : List Nat) :
    ∀ st : ScanState, st.uniqueCount = st.uniqueSet.card →
      (rest.foldl scanStep st).uniqueSet
          = st.uniqueSet ∪ (rest.filterMap charToValue).toFinset ∧
      (rest.foldl scanStep st).uniqueCount
          = ((rest.foldl scanStep st).uniqueSet).card := by
  induction rest with
  | nil => intro st h; simp [h]
  | cons c rest ih =>
    intro st h
    rw [List.foldl_cons]
    cases hv : charToValue c with
    | none =>
      rw [scanStep_invalid st hv]
      have := ih st h
      simp [List.filterMap_cons, hv, this.1, this.2]
    | some v =>
      have hu := scanStep_unique st hv
      have hcard : (scanStep st c).uniqueCount = (scanStep st c).uniqueSet.card := by
        rw [hu.1, hu.2]
        by_cases hm : v ∈ st.uniqueSet
        · rw [if_pos hm, Finset.insert_eq_self.mpr hm, h]
        · rw [if_neg hm, Finset.card_insert_of_not_mem hm, h]
      have := ih (scanStep st c) hcard
      refine ⟨?_, this.2⟩
      rw [this.1, hu.1]
      simp only [List.filterMap_cons, hv, List.toFinset_cons]
      rw [Finset.insert_union, Finset.union_insert]

/-- `UniqueLettersCount` is the number of distinct hex values among the
input's bytes (case-insensitive, because `charToValue` maps upper and lower
case to the same value; bytes outside the hex alphabet contribute
nothing). -/
theorem calculateScores_unique (line : List Nat) :
    (CalculateScores line).UniqueLettersCount
      = (line.filterMap charToValue).toFinset.card := by
  cases line with
  | nil => simp [CalculateScores]
  | cons c rest =>
    have hproj : (CalculateScores (c :: rest)).UniqueLettersCount
        = (rest.foldl scanStep (initState c)).uniqueCount := rfl
    rw [hproj]
    cases hv : charToValue c with
    | none =>
      have hinv := scan_unique_invariant rest (initState c) (by simp [initState, hv])
      rw [hinv.2, hinv.1]
      simp [initState, hv, List.filterMap_cons]
    | some v =>
      have hinv := scan_unique_invariant rest (initState c) (by simp [initState, hv])
      rw [hinv.2, hinv.1]
      simp [initState, hv, List.filterMap_cons, Finset.insert_eq]

/-- Shifting the accumulator out of the `seqRunMax` fold. -/
theorem foldl_seqMax_shift (l : List Nat) :
    ∀ a : Nat,
      l.foldl (fun m n => if 3 < n then max m (sequenceScoreMap n) else m) a
        = max a (l.foldl (fun m n => if 3 < n then max m (sequenceScoreMap n) else m) 0) := by
  induction l with
  | nil => intro a; simp
  | cons n l ih =>
    intro a
    simp only [List.foldl_cons]
    rw [ih (if 3 < n then max a (sequenceScoreMap n) else a),
      ih (if 3 < n then max 0 (sequenceScoreMap n) else 0)]
    split_ifs <;> omega

/-- `seqRunMax` over a cons. -/
theorem seqRunMax_cons (n : Nat) (l : List Nat) :
    seqRunMax (n :: l)
      = max (if 3 < n then sequenceScoreMap n else 0) (seqRunMax l) := by
  simp only [seqRunMax, List.foldl_cons]
  rw [foldl_seqMax_shift]
  split_ifs <;> omega

/-- `seqRunMax` of a single run. -/
theorem seqRunMax_single (n : Nat) :
    seqRunMax [n] = (if 3 < n then sequenceScoreMap n else 0) := by
  rw [seqRunMax_cons]
  simp [seqRunMax]

/-- The run trackers of the scan loop compute exactly the maximum table
score over the runs that survive the loop's break policy (`scoredRunsAux`):
for any suffix of hex bytes and any state whose `prevVal` is the value of
the previous byte `p`, closing out the fold equals the running maximum
joined with the scores of the surviving runs, simultaneously for the
increasing and decreasing trackers. -/
theorem scan_seq_invariant (rest : List Nat) :
    ∀ (st : ScanState) (p pv : Nat), charToValue p = some pv →
      st.prevVal = (pv : Int) → (∀ x ∈ rest, (charToValue x).isSome) →
      ((if 3 < (rest.foldl scanStep st).increasingLen
        then max (rest.foldl scanStep st).maxIncreasingScore
               (sequenceScoreMap (rest.foldl scanStep st).increasingLen)
        else (rest.foldl scanStep st).maxIncreasingScore)
          = max st.maxIncreasingScore
              (seqRunMax (scoredRunsAux isIncreasing isDecreasing p st.increasingLen rest))) ∧
      ((if 3 < (rest.foldl scanStep st).decreasingLen
        then max (rest.foldl scanStep st).maxDecreasingScore
               (sequenceScoreMap (rest.foldl scanStep st).decreasingLen)
        else (rest.foldl scanStep st).maxDecreasingScore)
          = max st.maxDecreasingScore
              (seqRunMax (scoredRunsAux isDecreasing isIncreasing p st.decreasingLen rest))) := by
  induction rest with
  | nil =>
    intro st p pv hp hpv hhex
    simp only [List.foldl_nil, scoredRunsAux]
    constructor <;> (rw [seqRunMax_single]; split_ifs <;> omega)
  | cons c rest ih =>
    intro st p pv hp hpv hhex
    obtain ⟨v, hv⟩ := Option.isSome_iff_exists.mp (hhex c (List.mem_cons_self c rest))
    have hhex2 : ∀ x ∈ rest, (charToValue x).isSome :=
      fun x hx => hhex x (List.mem_cons_of_mem c hx)
    have hpv16 := charToValue_lt hp
    have hv16 := charToValue_lt hv
    have hprev := scanStep_prev st hv
    have hIncIff : ((v : Int) - st.prevVal = 1 ∨ (st.prevVal = 15 ∧ v = 0))
        ↔ isIncreasing p c = true := by
      rw [hpv]
      simp only [isIncreasing, hp, hv, beq_iff_eq]
      omega
    have hDecIff : ((v : Int) - st.prevVal = -1 ∨ (st.prevVal = 0 ∧ v = 15))
        ↔ isDecreasing p c = true := by
      rw [hpv]
      simp only [isDecreasing, hp, hv, beq_iff_eq]
      omega
    rw [List.foldl_cons]
    by_cases hI : isIncreasing p c = true
    · have hD : ¬ isDecreasing p c = true := by
        rw [← hIncIff] at hI
        rw [← hDecIff]
        rw [hpv] at hI ⊢
        omega
      obtain ⟨hf1, hf2, hf3, hf4⟩ := scanStep_incBranch st hv (hIncIff.mpr hI)
      have hmain := ih (scanStep st c) c v hv hprev.1 hhex2
      constructor
      · rw [hmain.1, hf1, hf3]
        simp only [scoredRunsAux]
        rw [if_pos hI]
      · rw [hmain.2, hf2, hf4]
        simp only [scoredRunsAux]
        rw [if_neg hD, if_pos hI]
    · by_cases hD : isDecreasing p c = true
      · obtain ⟨hf1, hf2, hf3, hf4⟩ := scanStep_decBranch st hv
          (fun h => hI (hIncIff.mp h)) (hDecIff.mpr hD)
        have hmain := ih (scanStep st c) c v hv hprev.1 hhex2
        constructor
        · rw [hmain.1, hf1, hf3]
          simp only [scoredRunsAux]
          rw [if_neg hI, if_pos hD]
        · rw [hmain.2, hf2, hf4]
          simp only [scoredRunsAux]
          rw [if_pos hD]
      · obtain ⟨hf1, hf2, hf3, hf4⟩ := scanStep_neutralBranch st hv
          (fun h => hI (hIncIff.mp h)) (fun h => hD (hDecIff.mp h))
        have hmain := ih (scanStep st c) c v hv hprev.1 hhex2
        constructor
        · rw [hmain.1, hf1, hf3]
          simp only [scoredRunsAux]
          rw [if_neg hI, if_neg hD, seqRunMax_cons]
          split_ifs <;> omega
        · rw [hmain.2, hf2, hf4]
          simp only [scoredRunsAux]
          rw [if_neg hD, if_neg hI, seqRunMax_cons]
          split_ifs <;> omega

/-- If every `tx.BatchCreate` call succeeds, the saver loop inserts every
record it is fed, in order, after whatever was already in the open
transaction. -/
theorem saverLoop_ok (bs : Nat) (insertOk : List KeyInfo → Bool)
    (hins : ∀ b, insertOk b = true) :
    ∀ (keys inserted batch : List KeyInfo),
      saverLoop bs insertOk inserted batch keys = some (inserted ++ batch ++ keys) := by
  intro keys
  induction keys with
  | nil =>
    intro inserted batch
    cases batch <;> simp [saverLoop, hins]
  | cons k rest ih =>
    intro inserted batch
    simp only [saverLoop, hins, if_true]
    split
    · rw [ih]; simp
    · rw [ih]; simp

/-- Whenever the saver loop finishes without a `BatchCreate` failure, the
open transaction holds exactly the prior contents plus every record fed
in. -/
theorem saverLoop_some (bs : Nat) (insertOk : List KeyInfo → Bool) :
    ∀ (keys inserted batch ins : List KeyInfo),
      saverLoop bs insertOk inserted batch keys = some ins →
      ins = inserted ++ batch ++ keys := by
  intro keys
  induction keys with
  | nil =>
    intro inserted batch ins h
    simp only [saverLoop] at h
    by_cases h1 : batch.isEmpty = true
    · rw [if_pos h1] at h
      rw [List.isEmpty_iff] at h1
      subst h1
      simp only [Option.some_inj] at h
      simp [h.symm]
    · rw [if_neg h1] at h
      by_cases h2 : insertOk batch = true
      · rw [if_pos h2] at h
        simp only [Option.some_inj] at h
        simp [h.symm]
      · rw [if_neg h2] at h
        exact absurd h (by simp)
  | cons k rest ih =>
    intro inserted batch ins h
    simp only [saverLoop] at h
    by_cases h1 : bs ≤ (batch ++ [k]).length
    · rw [if_pos h1] at h
      by_cases h2 : insertOk (batch ++ [k]) = true
      · rw [if_pos h2] at h
        have := ih _ _ _ h
        simp only [List.append_nil, List.nil_append] at this
        simp [this]
      · rw [if_neg h2] at h
        exact absurd h (by simp)
    · rw [if_neg h1] at h
      have := ih _ _ _ h
      simp [this]

/-! ## Claim theorems -/

/-- C1: `CalculateScores` returns exactly the literal component values the
spec fixes for the four 16-character scenarios, including scoring the run
still open at end of string (`8888888888888888` ends in an open repeat run
of 16, `0123456789ABCDEF` in an open increasing run of 16,
`FEDCBA9876543210` in an open decreasing run of 16, and `1929394959697989`
contains the magic substring `49` and 9 distinct digits). -/
theorem calculateScores_scenarios :
    CalculateScores (bytes "8888888888888888") = ⟨1024, 0, 0, 0, 1⟩ ∧
    CalculateScores (bytes "0123456789ABCDEF") = ⟨0, 928, 0, 0, 16⟩ ∧
    CalculateScores (bytes "FEDCBA9876543210") = ⟨0, 0, 928, 0, 16⟩ ∧
    CalculateScores (bytes "1929394959697989") = ⟨0, 0, 0, -100, 9⟩ := by
  refine ⟨?_, ?_, ?_, ?_⟩ <;> decide

/-- A candidate failing the skip-condition of `scorerWorker` is dropped. -/
theorem scorerStep_rejected (cfg : KeyGenerationConfig)
    (serialize : Candidate → Option (String × String)) (cand : Candidate)
    (hcond : totalScore (CalculateScores (lastSixteen cand.fingerprint)) ≤ cfg.MinScore ∨
      ((CalculateScores (lastSixteen cand.fingerprint)).UniqueLettersCount : Int) <
        cfg.MaxLettersCount) :
    scorerStep cfg serialize cand = none := by
  simp only [scorerStep]
  rw [if_pos hcond]

/-- An accepted candidate with a successful serialization yields exactly
the record `scorerWorker` assembles. -/
theorem scorerStep_accepted (cfg : KeyGenerationConfig)
    (serialize : Candidate → Option (String × String)) (cand : Candidate)
    (pub priv : String)
    (hcond : ¬ (totalScore (CalculateScores (lastSixteen cand.fingerprint)) ≤ cfg.MinScore ∨
      ((CalculateScores (lastSixteen cand.fingerprint)).UniqueLettersCount : Int) <
        cfg.MaxLettersCount))
    (hser : serialize cand = some (pub, priv)) :
    scorerStep cfg serialize cand =
      some { Fingerprint := cand.fingerprint, PublicKey := pub, PrivateKey := priv,
             RepeatLetterScore :=
               (CalculateScores (lastSixteen cand.fingerprint)).RepeatLetterScore,
             IncreasingLetterScore :=
               (CalculateScores (lastSixteen cand.fingerprint)).IncreasingLetterScore,
             DecreasingLetterScore :=
               (CalculateScores (lastSixteen cand.fingerprint)).DecreasingLetterScore,
             MagicLetterScore :=
               (CalculateScores (lastSixteen cand.fingerprint)).MagicLetterScore,
             Score := totalScore (CalculateScores (lastSixteen cand.fingerprint)),
             UniqueLettersCount :=
               (CalculateScores (lastSixteen cand.fingerprint)).UniqueLettersCount } := by
  simp only [scorerStep]
  rw [if_neg hcond, hser]

/-- C5: the scorer accepts a candidate — serializes it and forwards the
assembled record — exactly when its total score strictly exceeds
`MinScore` AND its unique-letter count is at least `MaxLettersCount`
(the code skips on `totalScore <= MinScore || UniqueLettersCount <
MaxLettersCount`); a rejected candidate is dropped with no output and
without the serializer ever being consulted (the result is `none` for
every serializer whatsoever). -/
theorem scorer_accept_iff (cfg : KeyGenerationConfig)
    (serialize : Candidate → Option (String × String)) (cand : Candidate)
    (pub priv : String) (hser : serialize cand = some (pub, priv)) :
    ((scorerStep cfg serialize cand).isSome ↔
      (cfg.MinScore < totalScore (CalculateScores (lastSixteen cand.fingerprint)) ∧
       cfg.MaxLettersCount ≤
         ((CalculateScores (lastSixteen cand.fingerprint)).UniqueLettersCount : Int))) ∧
    (¬ (cfg.MinScore < totalScore (CalculateScores (lastSixteen cand.fingerprint)) ∧
        cfg.MaxLettersCount ≤
          ((CalculateScores (lastSixteen cand.fingerprint)).UniqueLettersCount : Int)) →
      ∀ serialize2 : Candidate → Option (String × String),
        scorerStep cfg serialize2 cand = none) := by
  constructor
  · by_cases hcond : totalScore (CalculateScores (lastSixteen cand.fingerprint)) ≤ cfg.MinScore ∨
        ((CalculateScores (lastSixteen cand.fingerprint)).UniqueLettersCount : Int) <
          cfg.MaxLettersCount
    · rw [scorerStep_rejected cfg serialize cand hcond]
      simp only [Option.isSome_none, Bool.false_eq_true, false_iff]
      omega
    · rw [scorerStep_accepted cfg serialize cand pub priv hcond hser]
      simp only [Option.isSome_some, true_iff]
      omega
  · intro hrej serialize2
    exact scorerStep_rejected cfg serialize2 cand (by omega)

/-- Witness for C5 at a concrete accepted candidate: with `MinScore = 0`
and `MaxLettersCount = 0`, the all-eights fingerprint (total score 1024,
one unique letter) is accepted. -/
theorem scorer_accept_iff_witness :
    ((fun _ => some ("PUB", "PRIV")) : Candidate → Option (String × String))
        ⟨bytes "8888888888888888"⟩ = some ("PUB", "PRIV") ∧
    (scorerStep ⟨0, 0, 1⟩ (fun _ => some ("PUB", "PRIV"))
      ⟨bytes "8888888888888888"⟩).isSome :=
  ⟨rfl,
    (scorer_accept_iff ⟨0, 0, 1⟩ (fun _ => some ("PUB", "PRIV"))
      ⟨bytes "8888888888888888"⟩ "PUB" "PRIV" rfl).1.mpr (by decide)⟩

/-- C4 counterexample: take `MinScore = 0`, `MaxLettersCount = 10`, and one
candidate whose fingerprint is all eights.  Its total score 1024 exceeds the
minimum, so the claimed OR-policy would persist it — yet the run persists
nothing, because the code requires the score condition AND the uniqueness
condition (`UniqueLettersCount` is 1 < 10).  The claimed equivalence
"persisted ⟷ score exceeded minimum OR uniqueness satisfied" is therefore
false on the code. -/
theorem generateKeys_or_policy_counterexample :
    GenerateKeys ⟨0, 10, 1⟩ (fun _ => some ("PUB", "PRIV")) (fun _ => true) true
        [⟨bytes "8888888888888888"⟩] = ⟨[], none⟩ ∧
    0 < totalScore (CalculateScores (lastSixteen (bytes "8888888888888888"))) := by
  constructor
  · decide
  · decide

/-- C4 amended: a record is persisted by a failure-free run (serialization
total, every `BatchCreate` and the final `Commit` succeeding) exactly for
the candidates accepted by the conjunctive policy: total score strictly
above `MinScore` AND unique-letter count at least `MaxLettersCount`;
rejected candidates are dropped by the scorer before the saver. -/
theorem generateKeys_persists_accepted (cfg : KeyGenerationConfig)
    (serializeF : Candidate → String × String)
    (insertOk : List KeyInfo → Bool) (hins : ∀ b, insertOk b = true)
    (candidates : List Candidate) :
    (GenerateKeys cfg (fun c => some (serializeF c)) insertOk true candidates).persisted
      = candidates.filterMap (scorerStep cfg (fun c => some (serializeF c))) ∧
    ∀ cand : Candidate,
      (scorerStep cfg (fun c => some (serializeF c)) cand).isSome ↔
        (cfg.MinScore < totalScore (CalculateScores (lastSixteen cand.fingerprint)) ∧
         cfg.MaxLettersCount ≤
           ((CalculateScores (lastSixteen cand.fingerprint)).UniqueLettersCount : Int)) := by
  constructor
  · simp only [GenerateKeys]
    rw [saverLoop_ok cfg.BatchSize insertOk hins _ [] []]
    simp
  · intro cand
    have hser : (fun c => some (serializeF c)) cand
        = some ((serializeF cand).1, (serializeF cand).2) := by simp
    exact (scorer_accept_iff cfg _ cand (serializeF cand).1 (serializeF cand).2 hser).1

/-- Witness for C4 amended: one accepted all-eights candidate with
`MinScore = 0`, `MaxLettersCount = 0`, `BatchSize = 1` is persisted. -/
theorem generateKeys_persists_accepted_witness :
    (GenerateKeys ⟨0, 0, 1⟩ (fun _ => some ("PUB", "PRIV")) (fun _ => true) true
        [⟨bytes "8888888888888888"⟩]).persisted
      = [⟨bytes "8888888888888888"⟩].filterMap
          (scorerStep ⟨0, 0, 1⟩ (fun _ => some ("PUB", "PRIV"))) :=
  (generateKeys_persists_accepted ⟨0, 0, 1⟩ (fun _ => ("PUB", "PRIV"))
    (fun _ => true) (fun _ => rfl) [⟨bytes "8888888888888888"⟩]).1

/-- C6 counterexample: `BatchSize = 1`, two accepted candidates; the first
batch (the all-eights record) is inserted successfully, then the
`BatchCreate` for the second batch fails.  The claim says the earlier batch
stays persisted and `GenerateKeys` surfaces an error; the code instead
rolls back the single run-wide transaction — the earlier batch is lost,
nothing is persisted — and `GenerateKeys` still returns `nil`. -/
theorem generateKeys_batch_failure_counterexample :
    GenerateKeys ⟨0, 0, 1⟩ (fun _ => some ("PUB", "PRIV"))
        (fun b => !(b.any (fun k => k.Fingerprint = bytes "0123456789ABCDEF"))) true
        [⟨bytes "8888888888888888"⟩, ⟨bytes "0123456789ABCDEF"⟩]
      = ⟨[], none⟩ := by
  decide

/-- C6 amended: the whole run is one unit of atomicity, not each batch: a
run either persists nothing (any `BatchCreate` failure rolls back the
single open transaction, a `Commit` failure leaves nothing durable) or
persists every accepted candidate; and `GenerateKeys` returns `nil` to its
caller in every case — insert and commit failures are logged by the saver
goroutine, never surfaced. -/
theorem generateKeys_atomic_run_no_error (cfg : KeyGenerationConfig)
    (serialize : Candidate → Option (String × String))
    (insertOk : List KeyInfo → Bool) (commitOk : Bool)
    (candidates : List Candidate) :
    (GenerateKeys cfg serialize insertOk commitOk candidates).returnedError = none ∧
    ((GenerateKeys cfg serialize insertOk commitOk candidates).persisted = [] ∨
     (GenerateKeys cfg serialize insertOk commitOk candidates).persisted
       = candidates.filterMap (scorerStep cfg serialize)) := by
  simp only [GenerateKeys]
  split
  · exact ⟨rfl, Or.inl rfl⟩
  · rename_i ins h
    have hall := saverLoop_some cfg.BatchSize insertOk _ _ _ _ h
    simp only [List.nil_append] at hall
    cases commitOk with
    | false => exact ⟨rfl, Or.inl rfl⟩
    | true => exact ⟨rfl, Or.inr (by simp [hall])⟩

/-- C7 counterexample: with both armor steps succeeding and no encryptor
supplied (the nil interface), `SerializeKeys` does not return the armored
private key unencrypted — it unconditionally invokes `encryptor.Encrypt`,
and the method call on the nil interface faults (`none` in the model)
instead of succeeding. -/
theorem serializeKeys_nil_encryptor_counterexample :
    SerializeKeys (.ok "PUB") (.ok "PRIV") none = none := by
  rfl

/-- C7 amended: `SerializeKeys` requires the encryptor capability: it
always invokes `Encrypt` on the armored private key.  With any successful
encryptor the call returns the armored public key — which is independent of
which encryptor was supplied — together with the encrypted private key and
no error; with the nil encryptor the call faults instead of returning. -/
theorem serializeKeys_always_encrypts (pub priv r1 r2 : String)
    (e1 e2 : String → Except String String)
    (h1 : e1 priv = .ok r1) (h2 : e2 priv = .ok r2) :
    SerializeKeys (.ok pub) (.ok priv) (some e1) = some (pub, r1, none) ∧
    SerializeKeys (.ok pub) (.ok priv) (some e2) = some (pub, r2, none) ∧
    SerializeKeys (.ok pub) (.ok priv) none = none := by
  refine ⟨?_, ?_, rfl⟩ <;> simp [SerializeKeys, h1, h2]

/-- Witness for C7 amended at two concrete successful encryptors. -/
theorem serializeKeys_always_encrypts_witness :
    SerializeKeys (.ok "PUB") (.ok "PRIV") (some fun s => .ok ("A" ++ s))
        = some ("PUB", "APRIV", none) ∧
    SerializeKeys (.ok "PUB") (.ok "PRIV") (some fun s => .ok ("B" ++ s))
        = some ("PUB", "BPRIV", none) ∧
    SerializeKeys (.ok "PUB") (.ok "PRIV") none = none :=
  serializeKeys_always_encrypts "PUB" "PRIV" "APRIV" "BPRIV"
    (fun s => .ok ("A" ++ s)) (fun s => .ok ("B" ++ s)) rfl rfl

/-- C10: whenever `SerializeKeys` returns a non-nil error — public armor
failure, private armor failure, or encryption failure — both returned
strings are the empty string: the caller never sees partial key material
next to an error. -/
theorem serializeKeys_error_empty_strings
    (pubArmor privArmor : Except String String)
    (encryptor : Option (String → Except String String))
    (p q e : String)
    (h : SerializeKeys pubArmor privArmor encryptor = some (p, q, some e)) :
    p = "" ∧ q = "" := by
  cases pubArmor with
  | error e0 =>
    simp [SerializeKeys] at h
    exact ⟨h.1.symm, h.2.1.symm⟩
  | ok pub =>
    cases privArmor with
    | error e0 =>
      simp [SerializeKeys] at h
      exact ⟨h.1.symm, h.2.1.symm⟩
    | ok priv =>
      cases encryptor with
      | none => simp [SerializeKeys] at h
      | some enc =>
        cases henc : enc priv with
        | error e0 =>
          simp [SerializeKeys, henc] at h
          exact ⟨h.1.symm, h.2.1.symm⟩
        | ok r => simp [SerializeKeys, henc] at h

/-- Witness for C10 at a concrete failing armor step. -/
theorem serializeKeys_error_empty_strings_witness :
    SerializeKeys (.error "boom") (.ok "PRIV") (some fun s => .ok s)
        = some ("", "", some "boom") ∧
    ("" : String) = "" ∧ ("" : String) = "" :=
  ⟨rfl, serializeKeys_error_empty_strings (.error "boom") (.ok "PRIV")
    (some fun s => .ok s) "" "" "boom" rfl⟩

/-- C8 counterexample: the two implementations are not extensionally equal.
On `"8888"` the table-driven implementation scores the repeat run with its
table entry `floor(4^1.5) * 16 = 128`, while the pow-recomputing
implementation multiplies by the input length: `floor(4^1.5) * 4 = 32`. -/
theorem table_pow_impls_differ :
    (CalculateScores (bytes "8888")).RepeatLetterScore = 128 ∧
    (CalculateScoresPow (bytes "8888")).RepeatLetterScore = 32 ∧
    CalculateScores (bytes "8888") ≠ CalculateScoresPow (bytes "8888") := by
  refine ⟨by decide, by decide, by decide⟩

/-- C8 amended: the table-driven and pow-recomputing implementations are
not extensionally equal (they differ in the cost multiplier — input length
versus the constant 16 — in uniqueness counting of non-hex runes, and in
run-break policy), but they agree on all four canonical 16-character
scenario strings of the spec, on which those differences cancel. -/
theorem table_pow_impls_agree_scenarios :
    CalculateScoresPow (bytes "8888888888888888")
        = CalculateScores (bytes "8888888888888888") ∧
    CalculateScoresPow (bytes "0123456789ABCDEF")
        = CalculateScores (bytes "0123456789ABCDEF") ∧
    CalculateScoresPow (bytes "FEDCBA9876543210")
        = CalculateScores (bytes "FEDCBA9876543210") ∧
    CalculateScoresPow (bytes "1929394959697989")
        = CalculateScores (bytes "1929394959697989") := by
  refine ⟨?_, ?_, ?_, ?_⟩ <;> decide

/-- C2 counterexample: the claim's formula scores every maximal run of
length ≥ 4, however it breaks.  The code's scan loop does not: on `76545`
the decreasing run `7654` is broken by the increasing step `4→5`, which
silently resets the decreasing tracker, so the code returns 0 where the
formula gives `floor(3^1.5)*16 = 80`; and on the 17-character cyclic
increasing run `0123456789ABCDEF0` the code looks up table entry 17, which
is 0, where the formula gives `floor(16^1.5)*16 = 1024`. -/
theorem calculateScores_seq_spec_counterexample :
    specSeqScore isDecreasing (bytes "76545") = 80 ∧
    (CalculateScores (bytes "76545")).DecreasingLetterScore = 0 ∧
    specSeqScore isIncreasing (bytes "0123456789ABCDEF0") = 1024 ∧
    (CalculateScores (bytes "0123456789ABCDEF0")).IncreasingLetterScore = 0 := by
  refine ⟨by decide, by decide, by decide, by decide⟩

/-- C2 amended: for every input of hex bytes (up to length 31, beyond which
the Go table lookup goes out of range), `IncreasingLetterScore` is the
maximum of `sequenceScoreMap` — which is `floor((len-1)^1.5) * 16` for run
lengths up to 16 and 0 beyond — over the maximal cyclic increasing runs of
length ≥ 4 that are broken by a neutral byte or by end of input; a run
broken by the first step of a decreasing run is discarded without being
scored.  `DecreasingLetterScore` is symmetric. -/
theorem calculateScores_seq_scoredRuns (line : List Nat)
    (hhex : ∀ c ∈ line, (charToValue c).isSome) (hlen : line.length ≤ 31) :
    (CalculateScores line).IncreasingLetterScore
        = seqRunMax (scoredRuns isIncreasing isDecreasing line) ∧
    (CalculateScores line).DecreasingLetterScore
        = seqRunMax (scoredRuns isDecreasing isIncreasing line) := by
  cases line with
  | nil => exact ⟨rfl, rfl⟩
  | cons c rest =>
    obtain ⟨v, hv⟩ := Option.isSome_iff_exists.mp (hhex c (List.mem_cons_self c rest))
    have hhex2 : ∀ x ∈ rest, (charToValue x).isSome :=
      fun x hx => hhex x (List.mem_cons_of_mem c hx)
    have hinit1 : (initState c).prevVal = (v : Int) := by simp [initState, hv]
    have hinv := scan_seq_invariant rest (initState c) c v hv hinit1 hhex2
    have hinc : (CalculateScores (c :: rest)).IncreasingLetterScore
        = (if 3 < (rest.foldl scanStep (initState c)).increasingLen
           then max (rest.foldl scanStep (initState c)).maxIncreasingScore
                  (sequenceScoreMap (rest.foldl scanStep (initState c)).increasingLen)
           else (rest.foldl scanStep (initState c)).maxIncreasingScore) := rfl
    have hdec : (CalculateScores (c :: rest)).DecreasingLetterScore
        = (if 3 < (rest.foldl scanStep (initState c)).decreasingLen
           then max (rest.foldl scanStep (initState c)).maxDecreasingScore
                  (sequenceScoreMap (rest.foldl scanStep (initState c)).decreasingLen)
           else (rest.foldl scanStep (initState c)).maxDecreasingScore) := rfl
    have hmi : (initState c).maxIncreasingScore = 0 := by simp [initState, hv]
    have hmd : (initState c).maxDecreasingScore = 0 := by simp [initState, hv]
    have hil : (initState c).increasingLen = 1 := by simp [initState, hv]
    have hdl : (initState c).decreasingLen = 1 := by simp [initState, hv]
    constructor
    · rw [hinc, hinv.1, hmi, hil]
      simp [scoredRuns]
    · rw [hdec, hinv.2, hmd, hdl]
      simp [scoredRuns]

/-- Witness for C2 amended on the full increasing fingerprint: the one
surviving run is the whole string. -/
theorem calculateScores_seq_scoredRuns_witness :
    (∀ c ∈ bytes "0123456789ABCDEF", (charToValue c).isSome) ∧
    (bytes "0123456789ABCDEF").length ≤ 31 ∧
    (CalculateScores (bytes "0123456789ABCDEF")).IncreasingLetterScore
      = seqRunMax (scoredRuns isIncreasing isDecreasing (bytes "0123456789ABCDEF")) :=
  ⟨by decide, by decide,
   (calculateScores_seq_scoredRuns (bytes "0123456789ABCDEF")
     (by decide) (by decide)).1⟩

/-- C3 counterexample: the claim says a non-hex byte terminates in-progress
runs at its position, under which `88X8` would contain no repeat run of
length ≥ 3 and score 0.  The code instead skips the invalid byte without
touching the run trackers, so the three eights straddle the `X` and score
`floor(3^1.5)*16 = 80`. -/
theorem calculateScores_invalid_break_counterexample :
    specRepeatScoreBreaking (bytes "88X8") = 0 ∧
    (CalculateScores (bytes "88X8")).RepeatLetterScore = 80 :=
  ⟨by decide, by decide⟩

/-- C3 amended: a byte outside the hex alphabet is non-contributing in the
strong sense that the whole scan state is unchanged at it — it is never
counted in `UniqueLettersCount` and never starts, extends or scores a run —
but it does NOT break an in-progress run: the run trackers survive it, so a
run may continue across invalid bytes.  `UniqueLettersCount` counts exactly
the distinct hex values among the input's bytes. -/
theorem calculateScores_invalid_noncontributing :
    (∀ (st : ScanState) (c : Nat), charToValue c = none → scanStep st c = st) ∧
    (∀ line : List Nat, line.length ≤ 31 →
      (CalculateScores line).UniqueLettersCount
        = (line.filterMap charToValue).toFinset.card) :=
  ⟨fun st _ h => scanStep_invalid st h, fun line _ => calculateScores_unique line⟩

/-- Witness for C3 amended: the invalid byte `X` (88) leaves a concrete
state unchanged, and the unique count of `88X8` is the number of distinct
hex values present (one). -/
theorem calculateScores_invalid_noncontributing_witness :
    scanStep (initState 56) 88 = initState 56 ∧
    (CalculateScores (bytes "88X8")).UniqueLettersCount
      = ((bytes "88X8").filterMap charToValue).toFinset.card :=
  ⟨calculateScores_invalid_noncontributing.1 (initState 56) 88 (by decide),
   calculateScores_invalid_noncontributing.2 (bytes "88X8") (by decide)⟩

/-- C9: for every 16-character string over the hex alphabet,
`UniqueLettersCount` equals the number of distinct hex digit values present
(case-insensitive, since `charToValue` identifies upper and lower case) and
lies in the interval `[1, 16]`. -/
theorem calculateScores_unique_count_bounds (line : List Nat)
    (hlen : line.length = 16)
    (hhex : ∀ c ∈ line, (charToValue c).isSome) :
    (CalculateScores line).UniqueLettersCount
        = (line.filterMap charToValue).toFinset.card ∧
    1 ≤ (CalculateScores line).UniqueLettersCount ∧
    (CalculateScores line).UniqueLettersCount ≤ 16 := by
  have hu := calculateScores_unique line
  refine ⟨hu, ?_, ?_⟩
  · rw [hu]
    cases line with
    | nil => simp at hlen
    | cons c rest =>
      obtain ⟨v, hv⟩ := Option.isSome_iff_exists.mp (hhex c (List.mem_cons_self c rest))
      have hmem : v ∈ (List.filterMap charToValue (c :: rest)).toFinset := by
        simp [List.filterMap_cons, hv]
      exact Finset.card_pos.mpr ⟨v, hmem⟩
  · rw [hu]
    have hsub : (line.filterMap charToValue).toFinset ⊆ Finset.range 16 := by
      intro x hx
      rw [List.mem_toFinset, List.mem_filterMap] at hx
      obtain ⟨c, _, hc⟩ := hx
      exact Finset.mem_range.mpr (charToValue_lt hc)
    have := Finset.card_le_card hsub
    simpa using this

/-- Witness for C9 on the full increasing fingerprint (16 distinct
values). -/
theorem calculateScores_unique_count_bounds_witness :
    (bytes "0123456789ABCDEF").length = 16 ∧
    1 ≤ (CalculateScores (bytes "0123456789ABCDEF")).UniqueLettersCount ∧
    (CalculateScores (bytes "0123456789ABCDEF")).UniqueLettersCount ≤ 16 :=
  ⟨by decide,
   (calculateScores_unique_count_bounds (bytes "0123456789ABCDEF")
     (by decide) (by decide)).2⟩

end GPGenie
